import Mathlib

/-!
Verification of the FREEDM DGI broker sources.

Shallow embedding of three source files:
* `Broker/src/CDataManager.cpp` — historic data store (`AddData`, `AddFIDState`,
  `GetFIDState`); C++ `float` times are modelled as `ℚ`, the `std::map` keyed
  by time as a key-sorted association list, and the `boost::property_tree`
  under each top-level key as the list of its direct children in insertion
  order.
* `Broker/src/CDeviceFactory.cpp` — device factory (`CreateDevice`,
  `CreateStructure`); the registry of creation callbacks is modelled by the
  list of registered type names, and a C++ `throw` by `Except.error`.
* `Broker/src/lb/LoadBalance.hpp` — only the declarations of the load-balance
  agent are in the repository (the .cpp body is absent), so the handler
  bodies are modelled from the specification, each marked
  `Modelled from the spec:` in its doc comment.
-/

namespace CDataManager

/-- Contents of a `std::map<std::string, bool>` FID state snapshot. -/
abbrev FidState := List (String × Bool)

/-- The body of the C++ `while(size > MAX_DATA_ENTRIES) pop_front()` loop,
run with enough fuel: each iteration that fires removes the front element.
`trimFrontAux maxE n l` performs at most `n` iterations of the loop. -/
def trimFrontAux {α : Type} (maxE : ℕ) : ℕ → List α → List α
  | 0, l => l
  | Nat.succ n, l => if l.length > maxE then trimFrontAux maxE n l.tail else l

/-- The eviction loop of `CDataManager::AddData` and `AddFIDState`:
pop the front (oldest) element while more than `maxE` entries remain.
`l.length` iterations of fuel always suffice because each firing iteration
shortens the list by one. -/
def trimFront {α : Type} (maxE : ℕ) (l : List α) : List α :=
  trimFrontAux maxE l.length l

/-- Insertion into a key-sorted association list: the model of
`std::map::operator[] = v` (replace the value when the key exists, otherwise
insert at the sorted position). -/
def mapInsert {V : Type} (t : ℚ) (v : V) : List (ℚ × V) → List (ℚ × V)
  | [] => [(t, v)]
  | (t0, v0) :: rest =>
    if t < t0 then (t, v) :: (t0, v0) :: rest
    else if t = t0 then (t, v) :: rest
    else (t0, v0) :: mapInsert t v rest

/-- Lookup of an existing key, the model of `std::map::operator[]` on the
read side (`[]` stands for the default-constructed value of an absent key,
which the source never hits on the paths verified here). -/
def mapFind (t : ℚ) : List (ℚ × FidState) → FidState
  | [] => []
  | (t0, v0) :: rest => if t = t0 then v0 else mapFind t rest

/-- `CDataManager::AddData` (CDataManager.cpp lines 24-47).  `clock` is the
result of `GetClock()`: `some time` when a clock device exists, `none`
otherwise.  With a clock, the sample is appended under `key` (the property
tree keeps direct children in insertion order) and the eviction loop trims
the front while more than `maxE = MAX_DATA_ENTRIES` entries remain.  Without
a clock, the sample is dropped after a warning and `m_data` is untouched;
no path of this branch throws.  `m_data` is modelled as the function from
top-level key to its list of `(time, value)` children. -/
def AddData (maxE : ℕ) (clock : Option ℚ) (key : String) (value : ℚ)
    (d : String → List (ℚ × ℚ)) : String → List (ℚ × ℚ) :=
  match clock with
  | none => d
  | some time =>
    fun k => if k = key then trimFront maxE (d key ++ [(time, value)]) else d k

/-- `CDataManager::AddFIDState` (CDataManager.cpp lines 56-79).  With a clock,
`m_fidstate[time] = fidstate` followed by the eviction loop erasing
`m_fidstate.begin()` (the smallest time) while more than `maxE` entries
remain.  Without a clock, the source stores the state at time `0` — with no
eviction loop — so that the initial topology is not lost. -/
def AddFIDState (maxE : ℕ) (clock : Option ℚ) (fs : FidState)
    (m : List (ℚ × FidState)) : List (ℚ × FidState) :=
  match clock with
  | some time => trimFront maxE (mapInsert time fs m)
  | none => mapInsert 0 fs m

/-- `CDataManager::GetFIDState` (CDataManager.cpp lines 81-101).  Throws
`runtime_error("Invalid FID State")` when `time` is below the first
(smallest) stored timestamp; otherwise folds over the keys in ascending
order keeping the last key `≤ time` and returns the state stored there.
The source dereferences `m_fidstate.begin()` unconditionally, so its
behaviour on an empty map is undefined; the claims are stated for nonempty
maps only and the `[]` branch is a placeholder error. -/
def GetFIDState (time : ℚ) (m : List (ℚ × FidState)) : Except String FidState :=
  match m with
  | [] => Except.error "undefined: empty map"
  | (t0, _) :: _ =>
    if time < t0 then Except.error "Invalid FID State"
    else
      Except.ok (mapFind (m.foldl (fun acc p => if time ≥ p.1 then p.1 else acc) t0) m)

end CDataManager

namespace CDataManager

/-- The eviction loop never leaves more than `maxE` entries, provided the
fuel covers the excess. -/
theorem trimFrontAux_length_le {α : Type} (maxE : ℕ) :
    ∀ (n : ℕ) (l : List α), l.length ≤ maxE + n →
      (trimFrontAux maxE n l).length ≤ maxE := by
  intro n
  induction n with
  | zero => intro l h; simpa [trimFrontAux] using h
  | succ n ih =>
    intro l h
    rw [trimFrontAux]
    by_cases hl : l.length > maxE
    · rw [if_pos hl]
      apply ih
      rw [List.length_tail]
      omega
    · rw [if_neg hl]
      omega

/-- The eviction loop only removes elements from the front: its result is a
suffix of its input. -/
theorem trimFrontAux_suffix {α : Type} (maxE : ℕ) :
    ∀ (n : ℕ) (l : List α), trimFrontAux maxE n l <:+ l := by
  intro n
  induction n with
  | zero => intro l; rw [trimFrontAux]
  | succ n ih =>
    intro l
    rw [trimFrontAux]
    by_cases hl : l.length > maxE
    · rw [if_pos hl]
      exact List.IsSuffix.trans (ih l.tail) (List.tail_suffix l)
    · rw [if_neg hl]

theorem trimFront_length_le {α : Type} (maxE : ℕ) (l : List α) :
    (trimFront maxE l).length ≤ maxE :=
  trimFrontAux_length_le maxE l.length l (Nat.le_add_left _ _)

theorem trimFront_suffix {α : Type} (maxE : ℕ) (l : List α) :
    trimFront maxE l <:+ l :=
  trimFrontAux_suffix maxE l.length l

/-- The fold of `GetFIDState` never returns a key above the query time when
started from an accumulator below it. -/
theorem foldl_matched_le (time : ℚ) :
    ∀ (l : List (ℚ × FidState)) (acc : ℚ), acc ≤ time →
      l.foldl (fun acc p => if time ≥ p.1 then p.1 else acc) acc ≤ time := by
  intro l
  induction l with
  | nil => intro acc h; simpa using h
  | cons q rest ih =>
    intro acc h
    simp only [List.foldl_cons]
    by_cases hq : time ≥ q.1
    · rw [if_pos hq]; exact ih q.1 hq
    · rw [if_neg hq]; exact ih acc h

/-- The fold of `GetFIDState` returns its accumulator or one of the keys. -/
theorem foldl_matched_mem (time : ℚ) :
    ∀ (l : List (ℚ × FidState)) (acc : ℚ),
      l.foldl (fun acc p => if time ≥ p.1 then p.1 else acc) acc = acc ∨
      ∃ p ∈ l,
        p.1 = l.foldl (fun acc p => if time ≥ p.1 then p.1 else acc) acc := by
  intro l
  induction l with
  | nil => intro acc; left; simp
  | cons q rest ih =>
    intro acc
    simp only [List.foldl_cons]
    by_cases hq : time ≥ q.1
    · rw [if_pos hq]
      rcases ih q.1 with he | ⟨p, hp, hpk⟩
      · exact Or.inr ⟨q, List.mem_cons_self q rest, by rw [he]⟩
      · exact Or.inr ⟨p, List.mem_cons_of_mem q hp, hpk⟩
    · rw [if_neg hq]
      rcases ih acc with he | ⟨p, hp, hpk⟩
      · exact Or.inl he
      · exact Or.inr ⟨p, List.mem_cons_of_mem q hp, hpk⟩

/-- The fold of `GetFIDState` never drops below its accumulator when every
key dominates it. -/
theorem foldl_matched_ge (time : ℚ) (l : List (ℚ × FidState)) (acc : ℚ)
    (h : ∀ p ∈ l, acc ≤ p.1) :
    acc ≤ l.foldl (fun acc p => if time ≥ p.1 then p.1 else acc) acc := by
  rcases foldl_matched_mem time l acc with he | ⟨p, hp, hpk⟩
  · rw [he]
  · rw [← hpk]; exact h p hp

/-- On a key-sorted list the fold of `GetFIDState` dominates every key at or
below the query time. -/
theorem foldl_matched_max (time : ℚ) :
    ∀ (l : List (ℚ × FidState)) (acc : ℚ),
      l.Pairwise (fun a b => a.1 < b.1) →
      ∀ p ∈ l, p.1 ≤ time →
        p.1 ≤ l.foldl (fun acc p => if time ≥ p.1 then p.1 else acc) acc := by
  intro l
  induction l with
  | nil => intro acc _ p hp; cases hp
  | cons q rest ih =>
    intro acc hs p hp hple
    rw [List.pairwise_cons] at hs
    simp only [List.foldl_cons]
    rcases List.mem_cons.mp hp with rfl | hpr
    · rw [if_pos hple]
      exact foldl_matched_ge time rest p.1 fun r hr => le_of_lt (hs.1 r hr)
    · by_cases hq : time ≥ q.1
      · rw [if_pos hq]; exact ih q.1 hs.2 p hpr hple
      · rw [if_neg hq]; exact ih acc hs.2 p hpr hple

/-- `mapFind` recovers the value stored at a key when the keys are sorted
(hence distinct). -/
theorem mapFind_eq (t : ℚ) (v : FidState) :
    ∀ (m : List (ℚ × FidState)), (t, v) ∈ m →
      m.Pairwise (fun a b => a.1 < b.1) → mapFind t m = v := by
  intro m
  induction m with
  | nil => intro h; cases h
  | cons q rest ih =>
    obtain ⟨t0, v0⟩ := q
    intro hm hs
    rw [List.pairwise_cons] at hs
    rw [mapFind]
    by_cases ht : t = t0
    · rw [if_pos ht]
      rcases List.mem_cons.mp hm with heq | hmr
      · cases heq; rfl
      · exact absurd (ht ▸ hs.1 (t, v) hmr) (lt_irrefl t0)
    · rw [if_neg ht]
      rcases List.mem_cons.mp hm with heq | hmr
      · cases heq; exact absurd rfl ht
      · exact ih hmr hs.2

end CDataManager

/-- Claim C7: with no clock device available, `CDataManager::AddData` takes
only the warning branch, which performs no operation that can throw, and
leaves the stored historic data `m_data` completely unchanged. -/
theorem AddData_noClock_unchanged (maxE : ℕ) (key : String) (value : ℚ)
    (d : String → List (ℚ × ℚ)) :
    CDataManager.AddData maxE none key value d = d := rfl

/-- Claim C9 counterexample: the claim fails as stated.  With
`MAX_DATA_ENTRIES = 1`, storing one FID state with a clock at time 1 and then
one without a clock leaves 2 > 1 entries: the no-clock branch of
`AddFIDState` stores the state at time 0 and runs no eviction loop. -/
theorem AddFIDState_noClock_exceeds_bound :
    (CDataManager.AddFIDState 1 none []
      (CDataManager.AddFIDState 1 (some 1) [] [])).length > 1 := by decide

/-- Claim C9 (amended): after every `AddData` call that stores a sample, the
entry count under the key is at most `MAX_DATA_ENTRIES` and eviction removes
only the oldest (front) entries; the same bound and oldest-first eviction
hold for `AddFIDState` whenever a clock is available.  (When no clock is
available, `AddFIDState` stores the state at time 0 without trimming, which
can exceed the bound by one entry.) -/
theorem AddData_AddFIDState_bounded (maxE : ℕ) (t u : ℚ) (key : String)
    (v : ℚ) (d : String → List (ℚ × ℚ)) (fs : CDataManager.FidState)
    (m : List (ℚ × CDataManager.FidState)) :
    (CDataManager.AddData maxE (some t) key v d key).length ≤ maxE ∧
    CDataManager.AddData maxE (some t) key v d key <:+ d key ++ [(t, v)] ∧
    (CDataManager.AddFIDState maxE (some u) fs m).length ≤ maxE ∧
    CDataManager.AddFIDState maxE (some u) fs m <:+
      CDataManager.mapInsert u fs m := by
  refine ⟨?_, ?_, ?_, ?_⟩
  · simp only [CDataManager.AddData, if_pos rfl]
    exact CDataManager.trimFront_length_le maxE _
  · simp only [CDataManager.AddData, if_pos rfl]
    exact CDataManager.trimFront_suffix maxE _
  · exact CDataManager.trimFront_length_le maxE _
  · exact CDataManager.trimFront_suffix maxE _

/-- Claim C10: on a nonempty FID history (keys sorted ascending, the
`std::map` invariant), `GetFIDState t` throws exactly when `t` is below the
earliest stored timestamp, and otherwise returns the state recorded at the
greatest stored timestamp at or below `t`. -/
theorem GetFIDState_correct (time : ℚ) (m : List (ℚ × CDataManager.FidState))
    (hne : m ≠ [])
    (hsort : m.Pairwise (fun a b => a.1 < b.1)) :
    (CDataManager.GetFIDState time m = Except.error "Invalid FID State" ↔
      ∀ p ∈ m, time < p.1) ∧
    ((∃ p ∈ m, p.1 ≤ time) →
      ∃ tm fs, (tm, fs) ∈ m ∧ tm ≤ time ∧
        (∀ p ∈ m, p.1 ≤ time → p.1 ≤ tm) ∧
        CDataManager.GetFIDState time m = Except.ok fs) := by
  obtain ⟨⟨t0, v0⟩, rest, rfl⟩ : ∃ q rest, m = q :: rest := by
    cases m with
    | nil => exact absurd rfl hne
    | cons q rest => exact ⟨q, rest, rfl⟩
  have hs := List.pairwise_cons.mp hsort
  constructor
  · constructor
    · intro h p hp
      by_cases ht : time < t0
      · rcases List.mem_cons.mp hp with rfl | hpr
        · exact ht
        · exact lt_trans ht (hs.1 p hpr)
      · rw [CDataManager.GetFIDState, if_neg ht] at h
        exact Except.noConfusion h
    · intro hall
      have ht : time < t0 := hall (t0, v0) (List.mem_cons_self _ _)
      rw [CDataManager.GetFIDState, if_pos ht]
  · rintro ⟨p, hp, hple⟩
    have ht : ¬ time < t0 := by
      have h1 : t0 ≤ p.1 := by
        rcases List.mem_cons.mp hp with rfl | hpr
        · exact le_refl _
        · exact le_of_lt (hs.1 p hpr)
      exact not_lt.mpr (le_trans h1 hple)
    have ht0 : t0 ≤ time := not_lt.mp ht
    obtain ⟨q, hq, hqk⟩ :
        ∃ q ∈ (t0, v0) :: rest,
          q.1 = (((t0, v0) :: rest).foldl
            (fun acc p => if time ≥ p.1 then p.1 else acc) t0) := by
      rcases CDataManager.foldl_matched_mem time ((t0, v0) :: rest) t0 with
        he | ⟨q, hq, hqk⟩
      · exact ⟨(t0, v0), List.mem_cons_self _ _, by rw [he]⟩
      · exact ⟨q, hq, hqk⟩
    obtain ⟨qt, qv⟩ := q
    refine ⟨qt, qv, hq, ?_, ?_, ?_⟩
    · rw [show qt = ((qt, qv) : ℚ × CDataManager.FidState).1 from rfl, hqk]
      exact CDataManager.foldl_matched_le time _ t0 ht0
    · intro r hr hrle
      rw [show qt = ((qt, qv) : ℚ × CDataManager.FidState).1 from rfl, hqk]
      exact CDataManager.foldl_matched_max time _ t0 hsort r hr hrle
    · rw [CDataManager.GetFIDState, if_neg ht]
      have hfind : CDataManager.mapFind
          (((t0, v0) :: rest).foldl
            (fun acc p => if time ≥ p.1 then p.1 else acc) t0)
          ((t0, v0) :: rest) = qv := by
        apply CDataManager.mapFind_eq _ _ _ _ hsort
        rw [← hqk]
        exact hq
      rw [hfind]

/-- Witness for C10 at a concrete two-entry history and query time 1. -/
theorem GetFIDState_correct_witness :
    (CDataManager.GetFIDState 1
        ([((0 : ℚ), [("fid", true)]), ((2 : ℚ), [])] :
          List (ℚ × CDataManager.FidState)) =
        Except.error "Invalid FID State" ↔
      ∀ p ∈ ([((0 : ℚ), [("fid", true)]), ((2 : ℚ), [])] :
          List (ℚ × CDataManager.FidState)), (1 : ℚ) < p.1) ∧
    ((∃ p ∈ ([((0 : ℚ), [("fid", true)]), ((2 : ℚ), [])] :
          List (ℚ × CDataManager.FidState)), p.1 ≤ (1 : ℚ)) →
      ∃ tm fs,
        (tm, fs) ∈ ([((0 : ℚ), [("fid", true)]), ((2 : ℚ), [])] :
          List (ℚ × CDataManager.FidState)) ∧ tm ≤ (1 : ℚ) ∧
        (∀ p ∈ ([((0 : ℚ), [("fid", true)]), ((2 : ℚ), [])] :
          List (ℚ × CDataManager.FidState)), p.1 ≤ (1 : ℚ) → p.1 ≤ tm) ∧
        CDataManager.GetFIDState 1
          ([((0 : ℚ), [("fid", true)]), ((2 : ℚ), [])] :
            List (ℚ × CDataManager.FidState)) = Except.ok fs) :=
  GetFIDState_correct 1 _ (by decide) (by decide)

namespace CDeviceFactory

/-- The factory state: the `m_initialized` flag (named `inited` here) set by
`init`, and the registry of device type names with registered creation
callbacks (`m_registry`, modelled by its key set; the callbacks themselves
are outside the excerpted source). -/
structure Factory where
  inited : Bool
  m_registry : List String

/-- `CDeviceFactory::init` (CDeviceFactory.cpp lines 99-113): connects the
configured clients (outside the model) and sets the flag. -/
def init (f : Factory) : Factory := { f with inited := true }

/-- `CDeviceFactory::CreateDevice` (CDeviceFactory.cpp lines 138-155): throws
a string when the factory is not yet set up by `init`; throws a string when
the device type is not registered; otherwise invokes the registered creation
callback. -/
def CreateDevice (f : Factory) (deviceString : String) : Except String Unit :=
  if f.inited = false then
    Except.error "CDeviceFactory::CreateDevice (public) called before init"
  else if f.m_registry.contains deviceString = false then
    Except.error ("Attempted to create device of unregistered type " ++
      deviceString)
  else
    Except.ok ()

/-- `CDeviceFactory::CreateStructure` (CDeviceFactory.cpp lines 174-189):
throws a string when the factory is not yet set up by `init`; otherwise
returns a PSCAD, RTDS, or generic device structure, none of which throws. -/
def CreateStructure (f : Factory) : Except String Unit :=
  if f.inited = false then
    Except.error "CDeviceFactory::CreateStructure called before init"
  else
    Except.ok ()

end CDeviceFactory

/-- Claim C8: `CreateDevice` throws exactly when the factory has not been
set up by `init` or the type is unregistered; `CreateStructure` throws
exactly when the factory has not been set up; after `init`, `CreateDevice`
on a registered type and `CreateStructure` do not throw. -/
theorem CreateDevice_CreateStructure_throw (f : CDeviceFactory.Factory)
    (ds : String) :
    ((∃ e, CDeviceFactory.CreateDevice f ds = Except.error e) ↔
      (f.inited = false ∨ f.m_registry.contains ds = false)) ∧
    ((∃ e, CDeviceFactory.CreateStructure f = Except.error e) ↔
      f.inited = false) ∧
    (CDeviceFactory.CreateDevice (CDeviceFactory.init f) ds = Except.ok () ↔
      f.m_registry.contains ds = true) ∧
    (CDeviceFactory.CreateStructure (CDeviceFactory.init f) =
      Except.ok ()) := by
  unfold CDeviceFactory.CreateDevice CDeviceFactory.CreateStructure
    CDeviceFactory.init
  refine ⟨?_, ?_, ?_, ?_⟩
  · by_cases h1 : f.inited = false
    · simp [h1]
    · by_cases h2 : ds ∈ f.m_registry <;> simp [h1, h2]
  · by_cases h1 : f.inited = false <;> simp [h1]
  · by_cases h2 : ds ∈ f.m_registry <;> simp [h2]
  · simp

namespace LBAgent

/-- `LBAgent::State` (LoadBalance.hpp line 49). -/
inductive State
  | SUPPLY
  | DEMAND
  | NORMAL
deriving DecidableEq

/-- The local control state of the agent used by the draft exchange
(LoadBalance.hpp lines 74-86); peer sets are modelled separately. -/
structure LBState where
  m_State : State
  m_Gateway : ℚ
  m_MigrationStep : ℚ
  m_AcceptDraftRequest : Bool
deriving DecidableEq

/-- Replies of the draft exchange. -/
inductive DraftReply
  | DraftAccept (amount : ℚ)
  | DraftReject
deriving DecidableEq

/-- Modelled from the spec: the body of `LBAgent::HandleDraftRequest`
(declared LoadBalance.hpp line 61; LoadBalance.cpp is not in the
repository).  Spec section 4.3 step 4: if `acceptDraftRequest` is false, or
local state is not SUPPLY, or the requested amount would push the gateway
past the opposite (low) threshold, reply `DraftReject`; otherwise clear
`acceptDraftRequest`, reply `DraftAccept(amount)`, and command the
SetPointController to reduce local export by `amount`.  The third component
is the commanded set-point reduction (`none` when no command is issued). -/
def HandleDraftRequest (low amount : ℚ) (s : LBState) :
    DraftReply × LBState × Option ℚ :=
  if s.m_AcceptDraftRequest = false ∨ s.m_State ≠ State.SUPPLY ∨
      s.m_Gateway - amount < low then
    (DraftReply.DraftReject, s, none)
  else
    (DraftReply.DraftAccept amount, { s with m_AcceptDraftRequest := false },
      some amount)

/-- Modelled from the spec: the reset of `acceptDraftRequest` on completion,
cooldown, or timeout (spec sections 3 and 4.3 step 6; the resetting code of
LoadBalance.cpp is not in the repository). -/
def ResetAccept (s : LBState) : LBState :=
  { s with m_AcceptDraftRequest := true }

/-- Events observed by a Supply-state agent between rounds: an incoming
draft request from some requester, or the reset of the accept gate. -/
inductive LBEvent
  | request (requester : String) (amount : ℚ)
  | reset
deriving DecidableEq

/-- One handler step of the responder: incoming requests go through
`HandleDraftRequest`, a reset restores the accept gate. -/
def LBStep (low : ℚ) (s : LBState) : LBEvent → LBState × Option DraftReply
  | LBEvent.request _ amount =>
    ((HandleDraftRequest low amount s).2.1,
      some (HandleDraftRequest low amount s).1)
  | LBEvent.reset => (ResetAccept s, none)

/-- Run a sequence of events, collecting the replies sent. -/
def RunEvents (low : ℚ) (s : LBState) :
    List LBEvent → LBState × List DraftReply
  | [] => (s, [])
  | e :: es =>
    ((RunEvents low (LBStep low s e).1 es).1,
      (match (LBStep low s e).2 with
        | some r => [r]
        | none => ([] : List DraftReply)) ++
        (RunEvents low (LBStep low s e).1 es).2)

/-- Whether a reply is a `DraftAccept`. -/
def isAccept : DraftReply → Bool
  | DraftReply.DraftAccept _ => true
  | DraftReply.DraftReject => false

/-- While the accept gate is down, every incoming request is rejected with
the state unchanged, so over any reset-free event sequence the gate stays
down and no `DraftAccept` is ever sent. -/
theorem runEvents_no_accept (low : ℚ) :
    ∀ (es : List LBEvent) (s : LBState),
      s.m_AcceptDraftRequest = false → LBEvent.reset ∉ es →
      (RunEvents low s es).1.m_AcceptDraftRequest = false ∧
      ∀ r ∈ (RunEvents low s es).2, isAccept r = false := by
  intro es
  induction es with
  | nil => intro s hflag _; exact ⟨hflag, by intro r hr; cases hr⟩
  | cons e es ih =>
    intro s hflag hnr
    have hnr' : LBEvent.reset ∉ es := fun h => hnr (List.mem_cons_of_mem e h)
    cases e with
    | reset => exact absurd (List.mem_cons_self _ _) hnr
    | request requester amount =>
      have hH : HandleDraftRequest low amount s =
          (DraftReply.DraftReject, s, none) := by
        rw [HandleDraftRequest, if_pos (Or.inl hflag)]
      rw [RunEvents]
      simp only [LBStep, hH]
      obtain ⟨ih1, ih2⟩ := ih s hflag hnr'
      refine ⟨ih1, ?_⟩
      intro r hr
      rcases List.mem_cons.mp hr with rfl | hr'
      · rfl
      · exact ih2 r hr'

end LBAgent

/-- Claim C1: `HandleDraftRequest` replies `DraftReject` (leaving the state
untouched and commanding nothing) exactly when `acceptDraftRequest` is
false, or the local state is not SUPPLY, or the requested amount would push
the gateway of the responder past the opposite threshold; in every other
case it clears `acceptDraftRequest`, replies `DraftAccept` with the
requested amount, and commands the set-point controller to reduce local
export by that amount. -/
theorem HandleDraftRequest_correct (low amount : ℚ) (s : LBAgent.LBState) :
    (LBAgent.HandleDraftRequest low amount s =
        (LBAgent.DraftReply.DraftReject, s, none) ↔
      (s.m_AcceptDraftRequest = false ∨ s.m_State ≠ LBAgent.State.SUPPLY ∨
        s.m_Gateway - amount < low)) ∧
    (LBAgent.HandleDraftRequest low amount s =
        (LBAgent.DraftReply.DraftAccept amount,
          { s with m_AcceptDraftRequest := false }, some amount) ↔
      (s.m_AcceptDraftRequest = true ∧ s.m_State = LBAgent.State.SUPPLY ∧
        ¬ s.m_Gateway - amount < low)) := by
  by_cases h : s.m_AcceptDraftRequest = false ∨
      s.m_State ≠ LBAgent.State.SUPPLY ∨ s.m_Gateway - amount < low
  · rw [LBAgent.HandleDraftRequest, if_pos h]
    constructor
    · simp [h]
    · rcases h with h | h | h <;> simp [h]
  · rw [LBAgent.HandleDraftRequest, if_neg h]
    push_neg at h
    obtain ⟨h1, h2, h3⟩ := h
    have h1t : s.m_AcceptDraftRequest = true := by
      revert h1; cases s.m_AcceptDraftRequest <;> simp
    constructor
    · simp [h1t, h2, h3]
    · simp [h1t, h2, h3]

/-- Claim C2: once a Supply-state agent sends a `DraftAccept`, the flag
`acceptDraftRequest` is false in the resulting state and stays false across
every subsequent reset-free event sequence (no completion, cooldown, or
timeout reset), and in that span the agent sends no second `DraftAccept` to
any requester. -/
theorem no_second_DraftAccept (low amt : ℚ) (s0 : LBAgent.LBState)
    (es : List LBAgent.LBEvent)
    (haccept :
      LBAgent.isAccept (LBAgent.HandleDraftRequest low amt s0).1 = true)
    (hnoreset : LBAgent.LBEvent.reset ∉ es) :
    (LBAgent.HandleDraftRequest low amt s0).2.1.m_AcceptDraftRequest =
        false ∧
    (LBAgent.RunEvents low
        (LBAgent.HandleDraftRequest low amt s0).2.1 es).1.m_AcceptDraftRequest
        = false ∧
    ∀ r ∈ (LBAgent.RunEvents low
        (LBAgent.HandleDraftRequest low amt s0).2.1 es).2,
      LBAgent.isAccept r = false := by
  have hflag :
      (LBAgent.HandleDraftRequest low amt s0).2.1.m_AcceptDraftRequest =
        false := by
    by_cases h : s0.m_AcceptDraftRequest = false ∨
        s0.m_State ≠ LBAgent.State.SUPPLY ∨ s0.m_Gateway - amt < low
    · rw [LBAgent.HandleDraftRequest, if_pos h] at haccept
      exact absurd haccept (by simp [LBAgent.isAccept])
    · rw [LBAgent.HandleDraftRequest, if_neg h]
  obtain ⟨h1, h2⟩ :=
    LBAgent.runEvents_no_accept low es
      (LBAgent.HandleDraftRequest low amt s0).2.1 hflag hnoreset
  exact ⟨hflag, h1, h2⟩

/-- Witness for C2: a concrete Supply agent accepts a first request; two
further requests during the reset-free span are both rejected and the gate
stays down. -/
theorem no_second_DraftAccept_witness :
    ((LBAgent.HandleDraftRequest 0 10
        ⟨LBAgent.State.SUPPLY, 30, 10, true⟩).2.1.m_AcceptDraftRequest =
        false) ∧
    ((LBAgent.RunEvents 0
        (LBAgent.HandleDraftRequest 0 10
          ⟨LBAgent.State.SUPPLY, 30, 10, true⟩).2.1
        [LBAgent.LBEvent.request "b" 5,
          LBAgent.LBEvent.request "c" 5]).1.m_AcceptDraftRequest = false) ∧
    (∀ r ∈ (LBAgent.RunEvents 0
        (LBAgent.HandleDraftRequest 0 10
          ⟨LBAgent.State.SUPPLY, 30, 10, true⟩).2.1
        [LBAgent.LBEvent.request "b" 5,
          LBAgent.LBEvent.request "c" 5]).2,
      LBAgent.isAccept r = false) :=
  no_second_DraftAccept 0 10 ⟨LBAgent.State.SUPPLY, 30, 10, true⟩
    [LBAgent.LBEvent.request "b" 5, LBAgent.LBEvent.request "c" 5]
    (by norm_num [LBAgent.HandleDraftRequest, LBAgent.isAccept]) (by decide)

namespace LBAgent

/-- The peer set bookkeeping of the agent (LoadBalance.hpp lines 69-72);
peer identities are their uuid strings. -/
structure PeerSets where
  m_AllPeers : Finset String
  m_InSupply : Finset String
  m_InDemand : Finset String
  m_InNormal : Finset String
deriving DecidableEq

/-- Modelled from the spec: the body of `LBAgent::MoveToPeerSet` (declared
LoadBalance.hpp line 52; LoadBalance.cpp is not in the repository).  The
peer is removed from the three state sets and inserted into the set for the
announced state (spec sections 3 and 4.3). -/
def MoveToPeerSet (p : String) (target : State) (ps : PeerSets) : PeerSets :=
  match target with
  | State.SUPPLY =>
    { ps with m_InSupply := insert p (ps.m_InSupply.erase p),
              m_InDemand := ps.m_InDemand.erase p,
              m_InNormal := ps.m_InNormal.erase p }
  | State.DEMAND =>
    { ps with m_InSupply := ps.m_InSupply.erase p,
              m_InDemand := insert p (ps.m_InDemand.erase p),
              m_InNormal := ps.m_InNormal.erase p }
  | State.NORMAL =>
    { ps with m_InSupply := ps.m_InSupply.erase p,
              m_InDemand := ps.m_InDemand.erase p,
              m_InNormal := insert p (ps.m_InNormal.erase p) }

/-- Modelled from the spec: the body of `LBAgent::HandleStateChange`
(declared LoadBalance.hpp line 63; LoadBalance.cpp is not in the
repository).  The announced peer is moved to the peer set matching its
state; a message from an unknown peer is dropped (spec sections 4.3, 7). -/
def HandleStateChange (p : String) (st : State) (ps : PeerSets) : PeerSets :=
  if p ∈ ps.m_AllPeers then MoveToPeerSet p st ps else ps

/-- Modelled from the spec: the body of `LBAgent::HandlePeerList` (declared
LoadBalance.hpp line 64; LoadBalance.cpp is not in the repository).  The
announced roster is merged into the registry, unknown peers entering
`InNormal` by default (spec section 4.3). -/
def HandlePeerList (roster : List String) (ps : PeerSets) : PeerSets :=
  roster.foldl
    (fun acc q =>
      if q ∈ acc.m_AllPeers then acc
      else { acc with m_AllPeers := insert q acc.m_AllPeers,
                      m_InNormal := insert q acc.m_InNormal })
    ps

/-- The partition invariant of spec section 3: `AllPeers` is the union of
the three state sets and the state sets are pairwise disjoint. -/
def partitionInv (ps : PeerSets) : Prop :=
  ps.m_AllPeers = ps.m_InSupply ∪ ps.m_InDemand ∪ ps.m_InNormal ∧
  ps.m_InSupply ∩ ps.m_InDemand = ∅ ∧
  ps.m_InSupply ∩ ps.m_InNormal = ∅ ∧
  ps.m_InDemand ∩ ps.m_InNormal = ∅

instance (ps : PeerSets) : Decidable (partitionInv ps) := by
  unfold partitionInv; infer_instance

/-- Pointwise reading of the partition invariant. -/
theorem partitionInv_iff (ps : PeerSets) :
    partitionInv ps ↔ ∀ q,
      (q ∈ ps.m_AllPeers ↔
        q ∈ ps.m_InSupply ∨ q ∈ ps.m_InDemand ∨ q ∈ ps.m_InNormal) ∧
      ¬(q ∈ ps.m_InSupply ∧ q ∈ ps.m_InDemand) ∧
      ¬(q ∈ ps.m_InSupply ∧ q ∈ ps.m_InNormal) ∧
      ¬(q ∈ ps.m_InDemand ∧ q ∈ ps.m_InNormal) := by
  unfold partitionInv
  rw [Finset.ext_iff, Finset.eq_empty_iff_forall_not_mem,
    Finset.eq_empty_iff_forall_not_mem, Finset.eq_empty_iff_forall_not_mem]
  simp only [Finset.mem_union, Finset.mem_inter, or_assoc]
  constructor
  · rintro ⟨h1, h2, h3, h4⟩ q
    exact ⟨h1 q, h2 q, h3 q, h4 q⟩
  · intro h
    exact ⟨fun q => (h q).1, fun q => (h q).2.1, fun q => (h q).2.2.1,
      fun q => (h q).2.2.2⟩

theorem MoveToPeerSet_preserves (p : String) (st : State) (ps : PeerSets)
    (hinv : partitionInv ps) (hp : p ∈ ps.m_AllPeers) :
    partitionInv (MoveToPeerSet p st ps) := by
  rw [partitionInv_iff] at hinv ⊢
  intro q
  have hq := hinv q
  cases st <;>
    (simp only [MoveToPeerSet, Finset.mem_insert, Finset.mem_erase, ne_eq]
     by_cases hqp : q = p
     · subst hqp; simp [hp]
     · simp [hqp]
       exact ⟨hq.1, fun a b => hq.2.1 ⟨a, b⟩, fun a b => hq.2.2.1 ⟨a, b⟩,
         fun a b => hq.2.2.2 ⟨a, b⟩⟩)

theorem HandleStateChange_preserves (p : String) (st : State)
    (ps : PeerSets) (hinv : partitionInv ps) :
    partitionInv (HandleStateChange p st ps) := by
  rw [HandleStateChange]
  by_cases hp : p ∈ ps.m_AllPeers
  · rw [if_pos hp]; exact MoveToPeerSet_preserves p st ps hinv hp
  · rwa [if_neg hp]

theorem addPeer_preserves (q : String) (ps : PeerSets)
    (hinv : partitionInv ps) :
    partitionInv (if q ∈ ps.m_AllPeers then ps
      else { ps with m_AllPeers := insert q ps.m_AllPeers,
                     m_InNormal := insert q ps.m_InNormal }) := by
  by_cases hq : q ∈ ps.m_AllPeers
  · rwa [if_pos hq]
  · rw [if_neg hq]
    rw [partitionInv_iff] at hinv ⊢
    intro r
    have hr := hinv r
    have hqq := hinv q
    have hs : q ∉ ps.m_InSupply := fun a => hq (hqq.1.mpr (Or.inl a))
    have hd : q ∉ ps.m_InDemand := fun a => hq (hqq.1.mpr (Or.inr (Or.inl a)))
    simp only [Finset.mem_insert]
    by_cases hrq : r = q
    · subst hrq; simp [hs, hd]
    · simp [hrq]
      exact ⟨hr.1, fun a b => hr.2.1 ⟨a, b⟩, fun a b => hr.2.2.1 ⟨a, b⟩,
        fun a b => hr.2.2.2 ⟨a, b⟩⟩

theorem HandlePeerList_preserves (roster : List String) :
    ∀ ps : PeerSets, partitionInv ps →
      partitionInv (HandlePeerList roster ps) := by
  induction roster with
  | nil => intro ps h; exact h
  | cons q rest ih =>
    intro ps h
    simp only [HandlePeerList, List.foldl_cons]
    exact ih _ (addPeer_preserves q ps h)

end LBAgent

/-- Claim C3: under the partition invariant, each peer in `AllPeers` is in
exactly one of the three state sets and `AllPeers` is their union; the
invariant is preserved by `MoveToPeerSet` on a known peer, by
`HandleStateChange`, and by `HandlePeerList`. -/
theorem peer_partition_invariant (ps : LBAgent.PeerSets) (p : String)
    (st : LBAgent.State) (roster : List String)
    (hinv : LBAgent.partitionInv ps) (hp : p ∈ ps.m_AllPeers) :
    (∀ q ∈ ps.m_AllPeers,
      (q ∈ ps.m_InSupply ∧ q ∉ ps.m_InDemand ∧ q ∉ ps.m_InNormal) ∨
      (q ∉ ps.m_InSupply ∧ q ∈ ps.m_InDemand ∧ q ∉ ps.m_InNormal) ∨
      (q ∉ ps.m_InSupply ∧ q ∉ ps.m_InDemand ∧ q ∈ ps.m_InNormal)) ∧
    LBAgent.partitionInv (LBAgent.MoveToPeerSet p st ps) ∧
    LBAgent.partitionInv (LBAgent.HandleStateChange p st ps) ∧
    LBAgent.partitionInv (LBAgent.HandlePeerList roster ps) := by
  refine ⟨?_, LBAgent.MoveToPeerSet_preserves p st ps hinv hp,
    LBAgent.HandleStateChange_preserves p st ps hinv,
    LBAgent.HandlePeerList_preserves roster ps hinv⟩
  rw [LBAgent.partitionInv_iff] at hinv
  intro q hq
  obtain ⟨hq1, hq2, hq3, hq4⟩ := hinv q
  rcases hq1.mp hq with a | b | c
  · exact Or.inl ⟨a, fun hb => hq2 ⟨a, hb⟩, fun hn => hq3 ⟨a, hn⟩⟩
  · exact Or.inr (Or.inl ⟨fun ha => hq2 ⟨ha, b⟩, b, fun hn => hq4 ⟨b, hn⟩⟩)
  · exact Or.inr (Or.inr ⟨fun ha => hq3 ⟨ha, c⟩, fun hb => hq4 ⟨hb, c⟩, c⟩)

/-- Witness for C3 on a concrete two-peer partition. -/
theorem peer_partition_invariant_witness :
    (∀ q ∈ (LBAgent.PeerSets.mk {"a", "b"} {"a"} ∅ {"b"}).m_AllPeers,
      (q ∈ (LBAgent.PeerSets.mk {"a", "b"} {"a"} ∅ {"b"}).m_InSupply ∧
        q ∉ (LBAgent.PeerSets.mk {"a", "b"} {"a"} ∅ {"b"}).m_InDemand ∧
        q ∉ (LBAgent.PeerSets.mk {"a", "b"} {"a"} ∅ {"b"}).m_InNormal) ∨
      (q ∉ (LBAgent.PeerSets.mk {"a", "b"} {"a"} ∅ {"b"}).m_InSupply ∧
        q ∈ (LBAgent.PeerSets.mk {"a", "b"} {"a"} ∅ {"b"}).m_InDemand ∧
        q ∉ (LBAgent.PeerSets.mk {"a", "b"} {"a"} ∅ {"b"}).m_InNormal) ∨
      (q ∉ (LBAgent.PeerSets.mk {"a", "b"} {"a"} ∅ {"b"}).m_InSupply ∧
        q ∉ (LBAgent.PeerSets.mk {"a", "b"} {"a"} ∅ {"b"}).m_InDemand ∧
        q ∈ (LBAgent.PeerSets.mk {"a", "b"} {"a"} ∅ {"b"}).m_InNormal)) ∧
    LBAgent.partitionInv (LBAgent.MoveToPeerSet "a" LBAgent.State.DEMAND
      (LBAgent.PeerSets.mk {"a", "b"} {"a"} ∅ {"b"})) ∧
    LBAgent.partitionInv (LBAgent.HandleStateChange "a" LBAgent.State.DEMAND
      (LBAgent.PeerSets.mk {"a", "b"} {"a"} ∅ {"b"})) ∧
    LBAgent.partitionInv (LBAgent.HandlePeerList ["c"]
      (LBAgent.PeerSets.mk {"a", "b"} {"a"} ∅ {"b"})) :=
  peer_partition_invariant (LBAgent.PeerSets.mk {"a", "b"} {"a"} ∅ {"b"})
    "a" LBAgent.State.DEMAND ["c"] (by decide) (by decide)

/-- Claim C4: handling `StateChange(p, SUPPLY)` twice in succession yields
the same peer sets as handling it once (`HandleStateChange` is idempotent,
for every starting partition). -/
theorem HandleStateChange_idempotent (p : String) (ps : LBAgent.PeerSets) :
    LBAgent.HandleStateChange p LBAgent.State.SUPPLY
        (LBAgent.HandleStateChange p LBAgent.State.SUPPLY ps) =
      LBAgent.HandleStateChange p LBAgent.State.SUPPLY ps := by
  by_cases hp : p ∈ ps.m_AllPeers
  · have h1 : LBAgent.HandleStateChange p LBAgent.State.SUPPLY ps =
        LBAgent.MoveToPeerSet p LBAgent.State.SUPPLY ps := by
      rw [LBAgent.HandleStateChange, if_pos hp]
    rw [h1, LBAgent.HandleStateChange]
    have hall : (LBAgent.MoveToPeerSet p LBAgent.State.SUPPLY ps).m_AllPeers =
        ps.m_AllPeers := rfl
    rw [hall, if_pos hp]
    cases ps with
    | mk all sup dem nor =>
      simp [LBAgent.MoveToPeerSet, Finset.erase_insert_eq_erase,
        Finset.erase_idem]
  · have h1 : LBAgent.HandleStateChange p LBAgent.State.SUPPLY ps = ps := by
      rw [LBAgent.HandleStateChange, if_neg hp]
    rw [h1, h1]

namespace LBAgent

/-- Modelled from the spec: the body of `LBAgent::SendDraftRequest`
(declared LoadBalance.hpp line 60; LoadBalance.cpp is not in the
repository).  When the local state is DEMAND, a candidate is chosen from
`InSupply` deterministically (lowest identity) and sent
`DraftRequest(migrationStep)`; when `InSupply` is empty no request is sent
this round and the state persists (spec section 4.3 steps 1-3).  The first
component is the message sent, as (chosen peer, requested amount). -/
def SendDraftRequest (s : LBState) (inSupply : Finset String) :
    Option (String × ℚ) × LBState :=
  if s.m_State = State.DEMAND then
    if h : inSupply.Nonempty then
      (some (inSupply.min' h, s.m_MigrationStep), s)
    else (none, s)
  else (none, s)

/-- Modelled from the spec: the classification step of `LBAgent::UpdateState`
(declared LoadBalance.hpp line 58; LoadBalance.cpp is not in the
repository).  Spec sections 4.1 and 8: gateway above the high threshold is
SUPPLY, below the low threshold is DEMAND, otherwise — including exactly at
either threshold — NORMAL. -/
def UpdateState (low high gateway : ℚ) : State :=
  if gateway > high then State.SUPPLY
  else if gateway < low then State.DEMAND
  else State.NORMAL

end LBAgent

/-- Claim C5: when the local state is DEMAND and `InSupply` is empty, the
draft-request step sends no message, raises no exception (the embedding is
a total function), and leaves the local state DEMAND. -/
theorem SendDraftRequest_empty_InSupply (s : LBAgent.LBState)
    (hst : s.m_State = LBAgent.State.DEMAND) :
    LBAgent.SendDraftRequest s ∅ = (none, s) ∧
    (LBAgent.SendDraftRequest s ∅).2.m_State = LBAgent.State.DEMAND := by
  have h1 : LBAgent.SendDraftRequest s ∅ = (none, s) := by
    rw [LBAgent.SendDraftRequest, if_pos hst, dif_neg]
    exact Finset.not_nonempty_empty
  exact ⟨h1, by rw [h1]; exact hst⟩

/-- Witness for C5 on a concrete Demand-state agent. -/
theorem SendDraftRequest_empty_InSupply_witness :
    LBAgent.SendDraftRequest ⟨LBAgent.State.DEMAND, -30, 10, true⟩ ∅ =
        (none, ⟨LBAgent.State.DEMAND, -30, 10, true⟩) ∧
    (LBAgent.SendDraftRequest
        ⟨LBAgent.State.DEMAND, -30, 10, true⟩ ∅).2.m_State =
      LBAgent.State.DEMAND :=
  SendDraftRequest_empty_InSupply ⟨LBAgent.State.DEMAND, -30, 10, true⟩ rfl

/-- Claim C6: for thresholds `low ≤ high`, the classification maps a
gateway strictly above `high` to SUPPLY, strictly below `low` to DEMAND,
and every other value — including values exactly equal to either
threshold — to NORMAL. -/
theorem UpdateState_classification (low high gateway : ℚ)
    (h : low ≤ high) :
    (LBAgent.UpdateState low high gateway = LBAgent.State.SUPPLY ↔
      high < gateway) ∧
    (LBAgent.UpdateState low high gateway = LBAgent.State.DEMAND ↔
      gateway < low) ∧
    (LBAgent.UpdateState low high gateway = LBAgent.State.NORMAL ↔
      low ≤ gateway ∧ gateway ≤ high) ∧
    LBAgent.UpdateState low high high = LBAgent.State.NORMAL ∧
    LBAgent.UpdateState low high low = LBAgent.State.NORMAL := by
  have hS : ∀ g : ℚ, high < g →
      LBAgent.UpdateState low high g = LBAgent.State.SUPPLY := by
    intro g hg; rw [LBAgent.UpdateState, if_pos hg]
  have hD : ∀ g : ℚ, g < low →
      LBAgent.UpdateState low high g = LBAgent.State.DEMAND := by
    intro g hg
    rw [LBAgent.UpdateState,
      if_neg (not_lt.mpr (le_of_lt (lt_of_lt_of_le hg h))), if_pos hg]
  have hN : ∀ g : ℚ, low ≤ g → g ≤ high →
      LBAgent.UpdateState low high g = LBAgent.State.NORMAL := by
    intro g h1 h2
    rw [LBAgent.UpdateState, if_neg (not_lt.mpr h2), if_neg (not_lt.mpr h1)]
  refine ⟨?_, ?_, ?_, hN high h le_rfl, hN low le_rfl h⟩
  · constructor
    · intro he
      by_contra hg
      rcases lt_or_le gateway low with h2 | h2
      · exact LBAgent.State.noConfusion ((hD gateway h2).symm.trans he)
      · exact LBAgent.State.noConfusion
          ((hN gateway h2 (not_lt.mp hg)).symm.trans he)
    · exact hS gateway
  · constructor
    · intro he
      by_contra hg
      rcases lt_or_le high gateway with h2 | h2
      · exact LBAgent.State.noConfusion ((hS gateway h2).symm.trans he)
      · exact LBAgent.State.noConfusion
          ((hN gateway (not_lt.mp hg) h2).symm.trans he)
    · exact hD gateway
  · constructor
    · intro he
      rcases lt_or_le high gateway with h1 | h1
      · exact LBAgent.State.noConfusion ((hS gateway h1).symm.trans he)
      · rcases lt_or_le gateway low with h2 | h2
        · exact LBAgent.State.noConfusion ((hD gateway h2).symm.trans he)
        · exact ⟨h2, h1⟩
    · rintro ⟨h1, h2⟩
      exact hN gateway h1 h2

/-- Witness for C6 at thresholds 0 and 10 with gateway 5. -/
theorem UpdateState_classification_witness :
    (LBAgent.UpdateState 0 10 5 = LBAgent.State.SUPPLY ↔ (10 : ℚ) < 5) ∧
    (LBAgent.UpdateState 0 10 5 = LBAgent.State.DEMAND ↔ (5 : ℚ) < 0) ∧
    (LBAgent.UpdateState 0 10 5 = LBAgent.State.NORMAL ↔
      (0 : ℚ) ≤ 5 ∧ (5 : ℚ) ≤ 10) ∧
    LBAgent.UpdateState 0 10 10 = LBAgent.State.NORMAL ∧
    LBAgent.UpdateState 0 10 0 = LBAgent.State.NORMAL :=
  UpdateState_classification 0 10 5 (by norm_num)
